import Mathlib

/-!
# StudentScoreManager: the replicated key-value store

A shallow embedding of `StudentScoreManager.go`: the `Database` cache layer
(`Insert`, `Delete`, `Update`, `Query`, `Count`), the gossip node
(`SyncWithPeer`, `HandleSync`), the warm-start loader `preloadData`, and
`StudentManager.QueryStudent`.

Modelling decisions.

* A Go `map[string]T` is an association list with pairwise distinct keys
  (`AList`).  `m[k] = v` is `AList.insert`, `delete(m, k)` is `AList.erase`,
  `v, ok := m[k]` is `AList.lookup`, `len(m)` is the number of entries and
  `for k, v := range m` visits the entries in list order.  Every theorem is
  stated for all such lists, hence for every iteration order.
* The dynamic values held in `db.data` are of two kinds in this program: a
  `*Student` (stored by `AddStudent` and the modify operations) and a value
  that `encoding/json` decoded into an `interface{}` (lazy load, warm start,
  gossip merge).  The type `Value` keeps the two apart, because
  `QueryStudent` tells them apart with a type assertion.
* `encoding/json` is not part of the repository.  It enters as a parameter
  `Codec`: `marshal` may fail, `unmarshal` may fail, and nothing else is
  assumed about either.
* The Redis server behind `db.rdb` is a second association list.  Each
  request carries a Boolean outcome chosen by the environment: a failed
  request returns an error and leaves the server content as it was.
* The mutex `db.mu` does not change results in a sequential run; its
  acquire and release calls are recorded, together with the Redis requests,
  in the ghost field `trace`, in program order.
-/

namespace StudentScoreManager

/-- Go maps with string keys. -/
abbrev GoMap (V : Type) := AList (fun _ : String => V)

/-- The record `Student`.  A score is a `float64`; it is kept as its bit
pattern, since no operation here computes with scores.  `Scores = none` is
the nil map. -/
structure Student where
  Name : String
  StudentID : Int
  Gender : String
  Class : String
  Scores : Option (List (String × Nat))
  deriving DecidableEq, Repr

/-- The dynamic values that reach `db.data`: a `*Student`, or a value that
`json.Unmarshal` produced for an `interface{}` target (`nil`, `bool`,
`float64`, `string`, `[]interface{}`, `map[string]interface{}`), of which
`J` is the type. -/
inductive Value (J : Type) where
  | student (s : Student)
  | decoded (j : J)
  deriving DecidableEq, Repr

/-- The two functions of `encoding/json` the program calls, over byte
strings `B`.  `marshal` is `json.Marshal`, `unmarshal` is `json.Unmarshal`
into a fresh `interface{}`; `none` is a non-nil error. -/
structure Codec (J B : Type) where
  marshal : Value J → Option B
  unmarshal : B → Option J

/-- What a value looks like after it was marshalled and decoded again. -/
def Codec.wire {J B : Type} (c : Codec J B) (v : Value J) : Option (Value J) :=
  match c.marshal v with
  | none => none
  | some b =>
    match c.unmarshal b with
    | none => none
    | some j => some (Value.decoded j)

/-- Calls on `db.mu` and requests to Redis, as they occur in program order. -/
inductive Event where
  | Lock
  | Unlock
  | RLock
  | RUnlock
  | Get (key : String)
  | Set (key : String)
  | Del (key : String)
  | Keys
  deriving DecidableEq, Repr

/-- A request that writes to the backing store. -/
def Event.isWrite : Event → Bool
  | Event.Set _ => true
  | Event.Del _ => true
  | _ => false

/-- The struct `Database`: `data`, the content of the Redis server that
`rdb` talks to, and the ghost `trace`. -/
structure Database (J B : Type) where
  data : GoMap (Value J)
  rdb : GoMap B
  trace : List Event

/-- `NewDatabase`, on a Redis server with the given content. -/
def NewDatabase {J B : Type} (rdb : GoMap B) : Database J B :=
  { data := ∅, rdb := rdb, trace := [] }

/-- Record one event. -/
def Database.emit {J B : Type} (db : Database J B) (e : Event) : Database J B :=
  { db with trace := db.trace ++ [e] }

/-- Modelled from the spec: the Redis client is not in the repository; this
is `set(key, bytes) -> ok|error` of the backing store adapter, called as
`db.rdb.Set(ctx, key, jsonData, 0)`.  `ok` says whether `.Err()` is nil; a
failed request leaves the content as it was. -/
def Database.rdbSet {J B : Type} (ok : Bool) (key : String) (jsonData : B)
    (db : Database J B) : Database J B :=
  { db with
    rdb := if ok then db.rdb.insert key jsonData else db.rdb,
    trace := db.trace ++ [Event.Set key] }

/-- Modelled from the spec: the Redis client is not in the repository; this
is `delete(key) -> ok|error` of the backing store adapter, called as
`db.rdb.Del(ctx, key)`.  `ok` says whether `.Err()` is nil; a failed request
leaves the content as it was. -/
def Database.rdbDel {J B : Type} (ok : Bool) (key : String)
    (db : Database J B) : Database J B :=
  { db with
    rdb := if ok then db.rdb.erase key else db.rdb,
    trace := db.trace ++ [Event.Del key] }

/-- Modelled from the spec: the Redis client is not in the repository; this
is `get(key) -> bytes|absent` of the backing store adapter, called as
`db.rdb.Get(ctx, key).Bytes()`: the bytes when the request goes through
(`ok`) and the key exists, otherwise a non-nil error (`none`), which is what
the callers test. -/
def Database.rdbGet {J B : Type} (ok : Bool) (key : String)
    (db : Database J B) : Option B × Database J B :=
  (if ok then db.rdb.lookup key else none, db.emit (Event.Get key))

/-- Modelled from the spec: the Redis client is not in the repository; this
is `listKeys(pattern)` of the backing store adapter, called as
`db.rdb.Keys(ctx, "*").Result()`: every key of the store when the request
goes through, otherwise a non-nil error (`none`). -/
def Database.rdbKeys {J B : Type} (ok : Bool)
    (db : Database J B) : Option (List String) × Database J B :=
  (if ok then some db.rdb.keys else none, db.emit Event.Keys)

/-- `Database.Insert`.  The deferred `Unlock` runs on every return path. -/
def Database.Insert {J B : Type} (c : Codec J B) (setOk : Bool)
    (db : Database J B) (key : String) (value : Value J) : Database J B :=
  let db := db.emit Event.Lock
  let db := { db with data := db.data.insert key value }
  match c.marshal value with
  | none => db.emit Event.Unlock
  | some jsonData => (db.rdbSet setOk key jsonData).emit Event.Unlock

/-- `Database.Delete`. -/
def Database.Delete {J B : Type} (delOk : Bool)
    (db : Database J B) (key : String) : Database J B :=
  let db := db.emit Event.Lock
  let db := { db with data := db.data.erase key }
  (db.rdbDel delOk key).emit Event.Unlock

/-- `Database.Update`. -/
def Database.Update {J B : Type} (c : Codec J B) (setOk : Bool)
    (db : Database J B) (key : String) (value : Value J) : Database J B :=
  let db := db.emit Event.Lock
  match db.data.lookup key with
  | some _ =>
    let db := { db with data := db.data.insert key value }
    match c.marshal value with
    | none => db.emit Event.Unlock
    | some jsonData => (db.rdbSet setOk key jsonData).emit Event.Unlock
  | none => db.emit Event.Unlock

/-- `Database.Query`.  The result `(value, true)` is `some value`, the
result `(nil, false)` is `none`. -/
def Database.Query {J B : Type} (c : Codec J B) (getOk : Bool)
    (db : Database J B) (key : String) : Option (Value J) × Database J B :=
  let db := db.emit Event.RLock
  let found := db.data.lookup key
  let db := db.emit Event.RUnlock
  match found with
  | some value => (some value, db)
  | none =>
    let db := db.emit Event.Lock
    match db.rdbGet getOk key with
    | (some val, db) =>
      match c.unmarshal val with
      | some data =>
        (some (Value.decoded data),
          ({ db with data := db.data.insert key (Value.decoded data) }).emit Event.Unlock)
      | none => (none, db.emit Event.Unlock)
    | (none, db) => (none, db.emit Event.Unlock)

/-- `Database.Count`. -/
def Database.Count {J B : Type} (db : Database J B) : Nat × Database J B :=
  let db := db.emit Event.RLock
  (db.data.entries.length, db.emit Event.RUnlock)

/-- The struct `StudentManager` (its own mutex `sm.mu` is not recorded). -/
structure StudentManager (J B : Type) where
  students : AList (fun _ : Int => Student)
  db : Database J B

/-- `strconv.Itoa`. -/
def Itoa (n : Int) : String := toString n

/-- `StudentManager.AddStudent`, on the fields read through
`StudentInterface`. -/
def StudentManager.AddStudent {J B : Type} (c : Codec J B) (setOk : Bool)
    (sm : StudentManager J B) (student : Student) : StudentManager J B :=
  let id := student.StudentID
  { students := sm.students.insert id student,
    db := sm.db.Insert c setOk (Itoa id) (Value.student student) }

/-- `StudentManager.QueryStudent`.  The result `(s, nil)` is `some s`, the
not-found error is `none`. -/
def StudentManager.QueryStudent {J B : Type} (c : Codec J B) (getOk : Bool)
    (sm : StudentManager J B) (studentID : Int) :
    Option Student × StudentManager J B :=
  match sm.students.lookup studentID with
  | some student => (some student, sm)
  | none =>
    match sm.db.Query c getOk (Itoa studentID) with
    | (some (Value.student s), db) =>
      (some s, { students := sm.students.insert studentID s, db := db })
    | (_, db) => (none, { sm with db := db })

/-- The struct `Node`. -/
structure Node (J B : Type) where
  ID : String
  Address : String
  Database : Database J B
  Peers : List String

/-- `NewNode`. -/
def NewNode {J B : Type} (id address : String) (db : Database J B)
    (peers : List String) : Node J B :=
  { ID := id, Address := address, Database := db, Peers := peers }

/-- The body of a `POST /gossip/sync` request: either the text of a JSON
object, given by its members in the order they are written (key, text of
the member value), or anything else. -/
inductive Body (B : Type) where
  | malformed
  | object (members : List (String × B))

/-- Modelled from the spec: the JSON binding of the web framework is not in
the repository.  Decoding the members of a JSON object into a
`map[string]interface{}`: each member value is decoded by `unmarshal`,
members are stored in the order written, a repeated key keeps the last
member, and one undecodable member fails the whole object (the inbound
snapshot is rejected all-or-nothing). -/
def bindMembers {J B : Type} (c : Codec J B) :
    List (String × B) → GoMap (Value J) → Option (GoMap (Value J))
  | [], m => some m
  | (k, b) :: rest, m =>
    match c.unmarshal b with
    | none => none
    | some j => bindMembers c rest (m.insert k (Value.decoded j))

/-- `c.ShouldBindJSON(&incomingData)` for `incomingData` of type
`map[string]interface{}`; `none` is a non-nil error. -/
def ShouldBindJSON {J B : Type} (c : Codec J B) : Body B → Option (GoMap (Value J))
  | Body.malformed => none
  | Body.object members => bindMembers c members ∅

/-- Modelled from the spec: `encoding/json` is not in the repository.
Marshalling a `map[string]interface{}` writes a JSON object with one member
for each entry, the value marshalled by `marshal`; one value that does not
marshal fails the whole map. -/
def marshalMembers {J B : Type} (c : Codec J B) :
    List (Sigma (fun _ : String => Value J)) → Option (List (String × B))
  | [] => some []
  | e :: rest =>
    match c.marshal e.2 with
    | none => none
    | some b =>
      match marshalMembers c rest with
      | none => none
      | some bs => some ((e.1, b) :: bs)

/-- `json.Marshal(data)` for `data` of type `map[string]interface{}`. -/
def Marshal {J B : Type} (c : Codec J B) (data : GoMap (Value J)) : Option (Body B) :=
  match marshalMembers c data.entries with
  | none => none
  | some members => some (Body.object members)

/-- The loop `for k, v := range src { dst[k] = v }`. -/
def assignAll {V : Type} (dst src : GoMap V) : GoMap V :=
  src.entries.foldl (fun d e => d.insert e.1 e.2) dst

/-- `Node.HandleSync`: the node afterwards and the status code of the
response (400 on a binding error, 200 otherwise). -/
def Node.HandleSync {J B : Type} (c : Codec J B) (n : Node J B) (body : Body B) :
    Node J B × Nat :=
  match ShouldBindJSON c body with
  | none => (n, 400)
  | some incomingData =>
    let db := n.Database.emit Event.Lock
    let db := { db with data := assignAll db.data incomingData }
    ({ n with Database := db.emit Event.Unlock }, 200)

/-- What a call of `SyncWithPeer` leaves behind: whether it returned a
non-nil error, the status code of the response when the request reached the
peer, and both nodes afterwards. -/
structure SyncOutcome (J B : Type) where
  err : Bool
  resp : Option Nat
  node : Node J B
  peer : Node J B

/-- `Node.SyncWithPeer`, with the node listening at `peerAddress` passed
as `peer`.  `postOk` says whether `http.Post` returned a response, in which
case the peer ran `HandleSync` on the body; `readOk` says whether
`io.ReadAll` on the response succeeded. -/
def Node.SyncWithPeer {J B : Type} (c : Codec J B) (postOk readOk : Bool)
    (n peer : Node J B) : SyncOutcome J B :=
  let db := n.Database.emit Event.RLock
  let data := assignAll (∅ : GoMap (Value J)) db.data
  let db := db.emit Event.RUnlock
  let n := { n with Database := db }
  match Marshal c data with
  | none => { err := true, resp := none, node := n, peer := peer }
  | some jsonData =>
    if postOk then
      match peer.HandleSync c jsonData with
      | (peer, status) =>
        { err := !readOk, resp := some status, node := n, peer := peer }
    else
      { err := true, resp := none, node := n, peer := peer }

/-- One iteration of the loop of `preloadData`. -/
def preloadKey {J B : Type} (c : Codec J B) (getOk : String → Bool)
    (db : Database J B) (key : String) : Database J B :=
  match db.rdbGet (getOk key) key with
  | (some val, db) =>
    match c.unmarshal val with
    | some data =>
      let db := db.emit Event.Lock
      let db := { db with data := db.data.insert key (Value.decoded data) }
      db.emit Event.Unlock
    | none => db
  | (none, db) => db

/-- `preloadData`.  `keysOk` is the outcome of the key listing, `getOk key`
the outcome of the fetch of `key`. -/
def preloadData {J B : Type} (c : Codec J B) (keysOk : Bool) (getOk : String → Bool)
    (db : Database J B) : Database J B :=
  match db.rdbKeys keysOk with
  | (none, db) => db
  | (some keys, db) => keys.foldl (preloadKey c getOk) db

/-- The discipline "no request to the backing store while `db.mu` is
held", checked on a trace; `held` says whether the lock is held at the
start. -/
def noRequestWhileHeld : Bool → List Event → Bool
  | _, [] => true
  | _, Event.Lock :: es => noRequestWhileHeld true es
  | _, Event.RLock :: es => noRequestWhileHeld true es
  | _, Event.Unlock :: es => noRequestWhileHeld false es
  | _, Event.RUnlock :: es => noRequestWhileHeld false es
  | held, _ :: es => !held && noRequestWhileHeld held es

/-- The codec of the examples.  A JSON text is represented by the document
it denotes, and so is a decoded value: `studentObject s` is the object
`json.Marshal` writes for the `*Student` `s` and the
`map[string]interface{}` decoded from it, `text w` any other document. -/
inductive Doc where
  | studentObject (s : Student)
  | text (w : String)
  deriving DecidableEq, Repr

/-- Marshalling writes the document of the value, decoding reads it back;
neither fails on these documents. -/
def docCodec : Codec Doc Doc :=
  { marshal := fun v =>
      match v with
      | Value.student s => some (Doc.studentObject s)
      | Value.decoded j => some j,
    unmarshal := fun b => some b }

/-- The student of the examples. -/
def ana : Student :=
  { Name := "Ana", StudentID := 42, Gender := "F", Class := "1A", Scores := none }

/-- A node with the given memory and backing store and no peers. -/
def nodeOf {J B : Type} (id : String) (data : GoMap (Value J)) (rdb : GoMap B) : Node J B :=
  NewNode id "" { data := data, rdb := rdb, trace := [] } []

/-- A node that holds a decoded value under "7" and the student record
under "42". -/
def nodeSeven : Node Doc Doc :=
  nodeOf "n1" (((∅ : GoMap (Value Doc)).insert "7" (Value.decoded (Doc.text "seven"))).insert
    "42" (Value.student ana)) ∅

/-- A request body with the members "42" and "9". -/
def bodyNine : Body Doc :=
  Body.object [("42", Doc.text "forty-two"), ("9", Doc.text "nine")]

/-- The map that `bodyNine` binds to. -/
def snapshotNine : GoMap (Value Doc) :=
  ((∅ : GoMap (Value Doc)).insert "42" (Value.decoded (Doc.text "forty-two"))).insert
    "9" (Value.decoded (Doc.text "nine"))

/-- A database whose memory is empty and whose backing store holds the
document of the student record under "42". -/
def coldDatabase : Database Doc Doc :=
  { data := ∅, rdb := (∅ : GoMap Doc).insert "42" (Doc.studentObject ana), trace := [] }

/-- A fresh database on an empty backing store. -/
def freshDatabase : Database Doc Doc := NewDatabase ∅

/-- What the loader obtains for `key`: the decoded value when the fetch of
`key` goes through, the key exists and its bytes decode. -/
def fetched {J B : Type} (c : Codec J B) (getOk : String → Bool) (rdb : GoMap B)
    (key : String) : Option J :=
  if getOk key then
    match rdb.lookup key with
    | some val => c.unmarshal val
    | none => none
  else none

/-- The scenario of the spec, first half: on a fresh database over an empty
backing store that is available, `Insert(key, value)` and then `Query(key)`;
the result of the query and the database afterwards. -/
def insertThenQuery {J B : Type} (c : Codec J B) (key : String) (value : Value J) :
    Option (Value J) × Database J B :=
  ((NewDatabase (∅ : GoMap B)).Insert c true key value).Query c true key

/-- The scenario of the spec, second half: `Delete(key)` and then
`Query(key)`, the backing store still available. -/
def deleteThenQuery {J B : Type} (c : Codec J B) (key : String) (value : Value J) :
    Option (Value J) × Database J B :=
  ((insertThenQuery c key value).2.Delete true key).Query c true key

/-- Node `a` pushes its snapshot to node `b`, then `b` pushes its snapshot
to `a`; the HTTP calls go through.  The second outcome holds `b` as `node`
and `a` as `peer`. -/
def exchange {J B : Type} (c : Codec J B) (a b : Node J B) :
    SyncOutcome J B × SyncOutcome J B :=
  let first := a.SyncWithPeer c true true b
  (first, first.peer.SyncWithPeer c true true first.node)

/-- A node whose memory holds the student record under "42". -/
def nodeAna : Node Doc Doc :=
  nodeOf "a" ((∅ : GoMap (Value Doc)).insert "42" (Value.student ana)) ∅

/-- A node whose memory holds a decoded value under "7". -/
def nodeText : Node Doc Doc :=
  nodeOf "b" ((∅ : GoMap (Value Doc)).insert "7" (Value.decoded (Doc.text "seven"))) ∅

/-- A node with an empty memory. -/
def nodeEmpty : Node Doc Doc := nodeOf "b" ∅ ∅

/-- A student manager with no students over `coldDatabase`. -/
def coldManager : StudentManager Doc Doc := { students := ∅, db := coldDatabase }

/-- The node of the scenario, after `Insert("42", value)` and `Query("42")`
and before the `Delete`. -/
def nodeAfterInsert (value : Value Doc) : Node Doc Doc :=
  NewNode "a" "" (insertThenQuery docCodec "42" value).2 []

/-- A database for the loader: the backing store holds the record of the
student under "42" and a document under "7"; memory holds an older value
under "7" and a value under "9" that the backing store does not list. -/
def warmDatabase : Database Doc Doc :=
  { data := ((∅ : GoMap (Value Doc)).insert "7" (Value.decoded (Doc.text "old"))).insert
      "9" (Value.decoded (Doc.text "nine")),
    rdb := ((∅ : GoMap Doc).insert "42" (Doc.studentObject ana)).insert "7" (Doc.text "seven"),
    trace := [] }

/-- Fetch outcomes for the loader: every fetch goes through but that of
"7". -/
def allButSeven (key : String) : Bool := decide (key ≠ "7")

/-! ## Lemmas on maps -/

section Maps

variable {V : Type}

/-- Assigning the entries of a list with distinct keys, one after the other:
a key of the list ends up with the value the list gives it, any other key
keeps its value. -/
theorem lookup_foldl_insert (l : List (Sigma (fun _ : String => V))) (hl : l.NodupKeys)
    (S : GoMap V) (k : String) :
    (l.foldl (fun d e => d.insert e.1 e.2) S).lookup k
      = match l.dlookup k with
        | some v => some v
        | none => S.lookup k := by
  induction l generalizing S with
  | nil => simp
  | cons e l ih =>
    obtain ⟨hk, hl⟩ := List.nodupKeys_cons.mp hl
    rw [List.foldl_cons, ih hl]
    by_cases h : k = e.1
    · subst h
      have hnone : List.dlookup e.1 l = none := List.dlookup_eq_none.mpr hk
      rw [hnone]
      cases e with
      | mk a b => simp [AList.lookup_insert]
    · rw [List.dlookup_cons_ne _ _ h, AList.lookup_insert_ne h]

/-- The assignment loop, key by key. -/
theorem lookup_assignAll (dst src : GoMap V) (k : String) :
    (assignAll dst src).lookup k
      = match src.lookup k with
        | some v => some v
        | none => dst.lookup k :=
  lookup_foldl_insert src.entries src.nodupKeys dst k

/-- Copying a map into an empty one gives a map with the same lookups. -/
theorem lookup_assignAll_empty (src : GoMap V) (k : String) :
    (assignAll (∅ : GoMap V) src).lookup k = src.lookup k := by
  rw [lookup_assignAll]
  cases src.lookup k <;> simp

end Maps

section Gossip

variable {J B : Type}

/-- Marshalling the entries of a map and binding the members again: every
key of the map is bound to its value as the wire delivers it, and that value
exists. -/
theorem bind_marshal_members (c : Codec J B) (l : List (Sigma (fun _ : String => Value J)))
    (hl : l.NodupKeys) (body : List (String × B)) (m M : GoMap (Value J))
    (hm : marshalMembers c l = some body) (hb : bindMembers c body m = some M) (k : String) :
    (M.lookup k = match l.dlookup k with
        | some v => c.wire v
        | none => m.lookup k)
    ∧ ∀ v, l.dlookup k = some v → ∃ j, c.wire v = some (Value.decoded j) := by
  induction l generalizing body m with
  | nil =>
    simp only [marshalMembers, Option.some.injEq] at hm
    subst hm
    simp only [bindMembers, Option.some.injEq] at hb
    subst hb
    simp
  | cons e l ih =>
    obtain ⟨a, v0⟩ := e
    obtain ⟨hk, hl2⟩ := List.nodupKeys_cons.mp hl
    simp only [marshalMembers] at hm
    cases hmv : c.marshal v0 with
    | none => simp [hmv] at hm
    | some b =>
      cases hrest : marshalMembers c l with
      | none => simp [hmv, hrest] at hm
      | some bs =>
        simp only [hmv, hrest, Option.some.injEq] at hm
        subst hm
        simp only [bindMembers] at hb
        cases hu : c.unmarshal b with
        | none => simp [hu] at hb
        | some j =>
          simp only [hu] at hb
          have hw : c.wire v0 = some (Value.decoded j) := by
            simp [Codec.wire, hmv, hu]
          obtain ⟨h1, h2⟩ := ih hl2 bs _ hrest hb
          by_cases h : k = a
          · subst h
            have hnone : List.dlookup k l = none := List.dlookup_eq_none.mpr hk
            rw [hnone] at h1
            simp only [List.dlookup_cons_eq, Option.some.injEq]
            refine ⟨?_, ?_⟩
            · rw [h1, hw, AList.lookup_insert]
            · intro v hv
              subst hv
              exact ⟨j, hw⟩
          · rw [List.dlookup_cons_ne _ _ h]
            refine ⟨?_, h2⟩
            rw [h1, AList.lookup_insert_ne h]

/-- A push changes neither the memory of the pushing node nor any backing
store. -/
theorem sync_frame (c : Codec J B) (postOk readOk : Bool) (n peer : Node J B) :
    (n.SyncWithPeer c postOk readOk peer).node.Database.data = n.Database.data
    ∧ (n.SyncWithPeer c postOk readOk peer).node.Database.rdb = n.Database.rdb
    ∧ (n.SyncWithPeer c postOk readOk peer).peer.Database.rdb = peer.Database.rdb := by
  simp only [Node.SyncWithPeer, Node.HandleSync, Database.emit]
  cases hM : Marshal c (assignAll (∅ : GoMap (Value J)) n.Database.data) with
  | none => simp
  | some body =>
    cases postOk with
    | false => simp
    | true =>
      cases hB : ShouldBindJSON c body with
      | none => simp [hB]
      | some M => simp [hB]

/-- An acknowledged push: the peer holds, for every key of the pushing node,
the value of that node marshalled and decoded, and its own value
elsewhere. -/
theorem sync_acknowledged (c : Codec J B) (postOk readOk : Bool) (n peer : Node J B)
    (h : (n.SyncWithPeer c postOk readOk peer).resp = some 200) (k : String) :
    ((n.SyncWithPeer c postOk readOk peer).peer.Database.data.lookup k
        = match n.Database.data.lookup k with
          | some v => c.wire v
          | none => peer.Database.data.lookup k)
    ∧ ∀ v, n.Database.data.lookup k = some v → ∃ j, c.wire v = some (Value.decoded j) := by
  simp only [Node.SyncWithPeer, Node.HandleSync, Database.emit] at h ⊢
  cases hM : Marshal c (assignAll (∅ : GoMap (Value J)) n.Database.data) with
  | none => simp [hM] at h
  | some body =>
    rw [hM] at h
    cases postOk with
    | false => simp at h
    | true =>
      unfold Marshal at hM
      cases hmm : marshalMembers c (assignAll (∅ : GoMap (Value J)) n.Database.data).entries with
      | none => simp [hmm] at hM
      | some members =>
        simp only [hmm, Option.some.injEq] at hM
        subst hM
        simp only [if_true, ShouldBindJSON] at h ⊢
        cases hb : bindMembers c members (∅ : GoMap (Value J)) with
        | none => simp [hb] at h
        | some M =>
          obtain ⟨h1, h2⟩ := bind_marshal_members c _
            (assignAll (∅ : GoMap (Value J)) n.Database.data).nodupKeys members ∅ M hmm hb k
          have hl : List.dlookup k (assignAll (∅ : GoMap (Value J)) n.Database.data).entries
              = n.Database.data.lookup k := lookup_assignAll_empty n.Database.data k
          rw [hl] at h1 h2
          refine ⟨?_, h2⟩
          simp only []
          rw [lookup_assignAll, h1]
          cases hn : n.Database.data.lookup k with
          | none => simp
          | some v =>
            obtain ⟨j, hj⟩ := h2 v hn
            simp [hj]

end Gossip

/-! ## The claims -/

section Claims

variable {J B : Type}

/-- C1: when the inbound sync handler binds the request body to the snapshot
`M` and merges it into the in-memory map `S` of the node, the resulting map
holds `M[k]` for every key `k` of `M`, holds `S[k]` unchanged for every key
of `S` that is not in `M`, and holds no other key; no key of `S` is removed.
The request is answered with status 200 and the backing store is not
touched. -/
theorem HandleSync_merges_snapshot (c : Codec J B) (n : Node J B) (body : Body B)
    (M : GoMap (Value J)) (hM : ShouldBindJSON c body = some M) (k : String) :
    (∀ v, M.lookup k = some v → (n.HandleSync c body).1.Database.data.lookup k = some v)
    ∧ (k ∉ M →
        (n.HandleSync c body).1.Database.data.lookup k = n.Database.data.lookup k)
    ∧ (k ∈ (n.HandleSync c body).1.Database.data ↔ k ∈ M ∨ k ∈ n.Database.data)
    ∧ (k ∈ n.Database.data → k ∈ (n.HandleSync c body).1.Database.data)
    ∧ (n.HandleSync c body).1.Database.rdb = n.Database.rdb
    ∧ (n.HandleSync c body).2 = 200 := by
  have hd : (n.HandleSync c body).1.Database.data = assignAll n.Database.data M := by
    simp [Node.HandleSync, hM, Database.emit]
  have hl := lookup_assignAll n.Database.data M k
  rw [← hd] at hl
  have hmem : k ∈ (n.HandleSync c body).1.Database.data ↔ k ∈ M ∨ k ∈ n.Database.data := by
    rw [← AList.lookup_isSome, ← AList.lookup_isSome, ← AList.lookup_isSome, hl]
    cases M.lookup k <;> simp
  refine ⟨?_, ?_, hmem, fun h => hmem.mpr (Or.inr h), ?_, ?_⟩
  · intro v hv
    rw [hl, hv]
  · intro hk
    rw [hl, AList.lookup_eq_none.mpr hk]
  · simp [Node.HandleSync, hM, Database.emit]
  · simp [Node.HandleSync, hM]

/-- Witness for C1: a node holding the student record under "42" and a
decoded value under "7" merges a snapshot with the keys "42" and "9"; the
entry under "7" stays. -/
theorem HandleSync_merges_snapshot_witness :
    ShouldBindJSON docCodec bodyNine = some snapshotNine
    ∧ "7" ∉ snapshotNine
    ∧ (nodeSeven.HandleSync docCodec bodyNine).1.Database.data.lookup "7"
        = nodeSeven.Database.data.lookup "7" :=
  ⟨rfl, by decide,
    (HandleSync_merges_snapshot docCodec nodeSeven bodyNine snapshotNine rfl "7").2.1
      (by decide)⟩

/-- C2: after `Insert(k, v)` whose backing set is issued (the value
marshals to `jsonData`) and succeeds, `Query(k)` returns `(v, true)`,
whatever the outcome of a backing fetch would be, and a direct fetch of `k`
from the backing store returns `jsonData`, the serialized form of `v`. -/
theorem Insert_write_through (c : Codec J B) (getOk : Bool) (db : Database J B)
    (key : String) (value : Value J) (jsonData : B)
    (hm : c.marshal value = some jsonData) :
    ((db.Insert c true key value).Query c getOk key).1 = some value
    ∧ (db.Insert c true key value).rdb.lookup key = some jsonData
    ∧ ((db.Insert c true key value).rdbGet true key).1 = some jsonData := by
  simp [Database.Insert, Database.Query, Database.rdbSet, Database.rdbGet, Database.emit, hm,
    AList.lookup_insert]

/-- Witness for C2: inserting the student record under "42" into a fresh
database. -/
theorem Insert_write_through_witness :
    docCodec.marshal (Value.student ana) = some (Doc.studentObject ana)
    ∧ ((freshDatabase.Insert docCodec true "42" (Value.student ana)).Query
          docCodec true "42").1 = some (Value.student ana)
    ∧ (freshDatabase.Insert docCodec true "42" (Value.student ana)).rdb.lookup "42"
        = some (Doc.studentObject ana) :=
  ⟨rfl,
    (Insert_write_through docCodec true freshDatabase "42" (Value.student ana)
      (Doc.studentObject ana) rfl).1,
    (Insert_write_through docCodec true freshDatabase "42" (Value.student ana)
      (Doc.studentObject ana) rfl).2.1⟩

/-- C3: when key `k` is not in the in-memory map, `Update(k, v)` leaves the
in-memory map and the backing store unchanged and issues no backing
request: its only events are the acquire and the release of the lock.  The
backing store is arbitrary, so this holds also when it holds `k`. -/
theorem Update_absent_key_is_noop (c : Codec J B) (setOk : Bool) (db : Database J B)
    (key : String) (value : Value J) (h : db.data.lookup key = none) :
    (db.Update c setOk key value).data = db.data
    ∧ (db.Update c setOk key value).rdb = db.rdb
    ∧ (db.Update c setOk key value).trace = db.trace ++ [Event.Lock, Event.Unlock] := by
  simp [Database.Update, Database.emit, h]

/-- Witness for C3: the key "42" is in the backing store only, and
`Update` does not bring it into memory. -/
theorem Update_absent_key_is_noop_witness :
    coldDatabase.data.lookup "42" = none
    ∧ coldDatabase.rdb.lookup "42" = some (Doc.studentObject ana)
    ∧ (coldDatabase.Update docCodec true "42" (Value.student ana)).data = coldDatabase.data
    ∧ (coldDatabase.Update docCodec true "42" (Value.student ana)).rdb = coldDatabase.rdb :=
  ⟨by decide, by decide,
    (Update_absent_key_is_noop docCodec true coldDatabase "42" (Value.student ana)
      (by decide)).1,
    (Update_absent_key_is_noop docCodec true coldDatabase "42" (Value.student ana)
      (by decide)).2.1⟩

end Claims

section ClaimsCache

variable {J B : Type}

/-- The lazy load of `Query`, in full. -/
theorem Query_miss_loaded (c : Codec J B) (db : Database J B) (key : String) (val : B)
    (data : J) (hmiss : db.data.lookup key = none) (hval : db.rdb.lookup key = some val)
    (hdec : c.unmarshal val = some data) :
    db.Query c true key
      = (some (Value.decoded data),
          { data := db.data.insert key (Value.decoded data), rdb := db.rdb,
            trace := db.trace ++ [Event.RLock, Event.RUnlock, Event.Lock, Event.Get key,
              Event.Unlock] }) := by
  simp [Database.Query, Database.rdbGet, Database.emit, hmiss, hval, hdec]

/-- A query that finds the key in memory. -/
theorem Query_hit (c : Codec J B) (getOk : Bool) (db : Database J B) (key : String)
    (value : Value J) (hhit : db.data.lookup key = some value) :
    db.Query c getOk key
      = (some value,
          { data := db.data, rdb := db.rdb,
            trace := db.trace ++ [Event.RLock, Event.RUnlock] }) := by
  simp [Database.Query, Database.emit, hhit]

/-- C4, amended: when key `k` is absent from the in-memory map, the backing
store holds a deserializable value for `k` and the fetch goes through,
`Query(k)` returns the deserialized value as found and adds exactly the
entry for `k` to the in-memory map, so that `Count()` grows by one; a second
`Query(k)`, whatever the state of the backing store connection, returns the
same value and leaves the map, `Count()` and the backing store unchanged. -/
theorem Query_lazy_load_populates (c : Codec J B) (db : Database J B) (key : String)
    (val : B) (data : J) (hmiss : db.data.lookup key = none)
    (hval : db.rdb.lookup key = some val) (hdec : c.unmarshal val = some data) :
    (db.Query c true key).1 = some (Value.decoded data)
    ∧ (db.Query c true key).2.data = db.data.insert key (Value.decoded data)
    ∧ (db.Query c true key).2.Count.1 = db.Count.1 + 1
    ∧ ∀ getOk : Bool,
        ((db.Query c true key).2.Query c getOk key).1 = some (Value.decoded data)
        ∧ ((db.Query c true key).2.Query c getOk key).2.data = (db.Query c true key).2.data
        ∧ ((db.Query c true key).2.Query c getOk key).2.Count.1
            = (db.Query c true key).2.Count.1
        ∧ ((db.Query c true key).2.Query c getOk key).2.rdb = db.rdb := by
  have hnot : key ∉ db.data := AList.lookup_eq_none.mp hmiss
  rw [Query_miss_loaded c db key val data hmiss hval hdec]
  refine ⟨rfl, rfl, ?_, ?_⟩
  · show (db.data.insert key (Value.decoded data)).entries.length = db.data.entries.length + 1
    rw [AList.insert_entries_of_neg hnot]
    rfl
  · intro getOk
    rw [Query_hit c getOk _ key (Value.decoded data) (AList.lookup_insert _)]
    simp [Database.Count, Database.emit]

/-- Witness for C4: the document of the student record is in the backing
store only. -/
theorem Query_lazy_load_populates_witness :
    coldDatabase.data.lookup "42" = none
    ∧ (coldDatabase.Query docCodec true "42").1
        = some (Value.decoded (Doc.studentObject ana))
    ∧ (coldDatabase.Query docCodec true "42").2.Count.1 = coldDatabase.Count.1 + 1 :=
  ⟨by decide,
    (Query_lazy_load_populates docCodec coldDatabase "42" (Doc.studentObject ana)
      (Doc.studentObject ana) (by decide) (by decide) rfl).1,
    (Query_lazy_load_populates docCodec coldDatabase "42" (Doc.studentObject ana)
      (Doc.studentObject ana) (by decide) (by decide) rfl).2.2.1⟩

/-- Counterexample for C4 as stated: the key "42" is absent from memory and
the backing store holds a deserializable value for it, but the fetch returns
an error; `Query` answers not-found and `Count()` stays at zero. -/
theorem Query_fetch_error_is_not_found :
    coldDatabase.data.lookup "42" = none
    ∧ coldDatabase.rdb.lookup "42" = some (Doc.studentObject ana)
    ∧ docCodec.unmarshal (Doc.studentObject ana) = some (Doc.studentObject ana)
    ∧ (coldDatabase.Query docCodec false "42").1 = none
    ∧ (coldDatabase.Query docCodec false "42").2.Count.1 = coldDatabase.Count.1 := by
  decide

/-- C7: the in-memory map after `Insert`, `Update` and `Delete` does not
depend on the outcome of the backing request, nor on whether the value
marshals: `Insert` leaves `k` mapped to `v`, `Update` leaves `k` mapped to
`v` when `k` was in memory, `Delete` leaves `k` absent.  When the backing
request fails, the backing store is as it was. -/
theorem mutation_keeps_memory_on_backing_failure (c : Codec J B) (ok : Bool)
    (db : Database J B) (key : String) (value : Value J) :
    (db.Insert c ok key value).data = db.data.insert key value
    ∧ (db.Insert c ok key value).data.lookup key = some value
    ∧ (db.Insert c true key value).data = (db.Insert c false key value).data
    ∧ (db.Update c ok key value).data
        = (if key ∈ db.data then db.data.insert key value else db.data)
    ∧ (db.Update c ok key value).data.lookup key
        = (if key ∈ db.data then some value else none)
    ∧ (db.Update c true key value).data = (db.Update c false key value).data
    ∧ (db.Delete ok key).data = db.data.erase key
    ∧ (db.Delete ok key).data.lookup key = none
    ∧ (db.Delete true key).data = (db.Delete false key).data
    ∧ (db.Insert c false key value).rdb = db.rdb
    ∧ (db.Update c false key value).rdb = db.rdb
    ∧ (db.Delete false key).rdb = db.rdb := by
  have hI : ∀ b : Bool, (db.Insert c b key value).data = db.data.insert key value := by
    intro b
    simp only [Database.Insert, Database.rdbSet, Database.emit]
    cases c.marshal value <;> rfl
  have hU : ∀ b : Bool, (db.Update c b key value).data
      = (if key ∈ db.data then db.data.insert key value else db.data) := by
    intro b
    simp only [Database.Update, Database.rdbSet, Database.emit]
    cases hl : db.data.lookup key with
    | none =>
      have hnot : key ∉ db.data := AList.lookup_eq_none.mp hl
      simp [hnot]
    | some v =>
      have hin : key ∈ db.data := AList.lookup_isSome.mp (by simp [hl])
      simp only [hin, if_true]
      cases c.marshal value <;> rfl
  have hD : ∀ b : Bool, (db.Delete b key).data = db.data.erase key := by
    intro b
    simp [Database.Delete, Database.rdbDel, Database.emit]
  refine ⟨hI ok, ?_, ?_, hU ok, ?_, ?_, hD ok, ?_, ?_, ?_, ?_, ?_⟩
  · rw [hI ok, AList.lookup_insert]
  · rw [hI true, hI false]
  · rw [hU ok]
    by_cases hin : key ∈ db.data
    · simp [hin, AList.lookup_insert]
    · simp [hin, AList.lookup_eq_none.mpr hin]
  · rw [hU true, hU false]
  · rw [hD ok, AList.lookup_erase]
  · rw [hD true, hD false]
  · simp only [Database.Insert, Database.rdbSet, Database.emit]
    cases c.marshal value <;> simp
  · simp only [Database.Update, Database.rdbSet, Database.emit]
    cases db.data.lookup key with
    | none => simp
    | some v => cases c.marshal value <;> simp
  · simp [Database.Delete, Database.rdbDel, Database.emit]

/-- C9, amended: every backing request of a cache operation is issued while
the exclusive lock is held.  The events of `Insert` are `Lock`, the `Set`
request when the value marshals, `Unlock`; those of `Update` are the same
when the key is in memory, and `Lock`, `Unlock` otherwise; those of
`Delete` are `Lock`, the `Del` request, `Unlock`; those of `Query` are
`RLock`, `RUnlock` and, on a miss, `Lock`, the `Get` request, `Unlock`.
Each operation issues at most one request, and the lock discipline fails on
the events of every `Delete`. -/
theorem requests_are_issued_under_lock (c : Codec J B) (ok : Bool) (db : Database J B)
    (key : String) (value : Value J) :
    (db.Insert c ok key value).trace
        = db.trace ++ (match c.marshal value with
            | some _ => [Event.Lock, Event.Set key, Event.Unlock]
            | none => [Event.Lock, Event.Unlock])
    ∧ (db.Update c ok key value).trace
        = db.trace ++ (match db.data.lookup key, c.marshal value with
            | some _, some _ => [Event.Lock, Event.Set key, Event.Unlock]
            | _, _ => [Event.Lock, Event.Unlock])
    ∧ (db.Delete ok key).trace = db.trace ++ [Event.Lock, Event.Del key, Event.Unlock]
    ∧ (db.Query c ok key).2.trace
        = db.trace ++ (match db.data.lookup key with
            | some _ => [Event.RLock, Event.RUnlock]
            | none => [Event.RLock, Event.RUnlock, Event.Lock, Event.Get key, Event.Unlock])
    ∧ noRequestWhileHeld false (List.drop db.trace.length (db.Delete ok key).trace) = false := by
  have hD : (db.Delete ok key).trace = db.trace ++ [Event.Lock, Event.Del key, Event.Unlock] := by
    simp [Database.Delete, Database.rdbDel, Database.emit]
  refine ⟨?_, ?_, hD, ?_, ?_⟩
  · simp only [Database.Insert, Database.rdbSet, Database.emit]
    cases c.marshal value <;> simp
  · simp only [Database.Update, Database.rdbSet, Database.emit]
    cases db.data.lookup key with
    | none => simp
    | some v => cases c.marshal value <;> simp
  · simp only [Database.Query, Database.rdbGet, Database.emit]
    cases db.data.lookup key with
    | some v => simp
    | none =>
      simp only []
      cases hg : (if ok = true then AList.lookup key db.rdb else none) with
      | none => simp
      | some val => cases hu : c.unmarshal val <;> simp [hu]
  · rw [hD, List.drop_left]
    rfl

/-- Counterexample for C9 as stated: `Insert` on a fresh database issues its
`Set` request between `Lock` and `Unlock`, so the trace breaks the
discipline. -/
theorem Insert_holds_lock_across_set :
    (freshDatabase.Insert docCodec true "42" (Value.student ana)).trace
        = [Event.Lock, Event.Set "42", Event.Unlock]
    ∧ noRequestWhileHeld false
        (freshDatabase.Insert docCodec true "42" (Value.student ana)).trace = false := by
  decide

end ClaimsCache

section ClaimsPreload

variable {J B : Type}

/-- One iteration of the loader. -/
theorem preloadKey_spec (c : Codec J B) (getOk : String → Bool) (db : Database J B)
    (key : String) :
    (preloadKey c getOk db key).rdb = db.rdb
    ∧ (preloadKey c getOk db key).data
        = (match fetched c getOk db.rdb key with
            | some j => db.data.insert key (Value.decoded j)
            | none => db.data)
    ∧ ∃ es, (preloadKey c getOk db key).trace = db.trace ++ es
        ∧ ∀ e ∈ es, Event.isWrite e = false := by
  cases hg : getOk key with
  | false =>
    refine ⟨?_, ?_, [Event.Get key], ?_, ?_⟩ <;>
      simp [preloadKey, fetched, Database.rdbGet, Database.emit, hg, Event.isWrite]
  | true =>
    cases hl : db.rdb.lookup key with
    | none =>
      refine ⟨?_, ?_, [Event.Get key], ?_, ?_⟩ <;>
        simp [preloadKey, fetched, Database.rdbGet, Database.emit, hg, hl, Event.isWrite]
    | some val =>
      cases hu : c.unmarshal val with
      | none =>
        refine ⟨?_, ?_, [Event.Get key], ?_, ?_⟩ <;>
          simp [preloadKey, fetched, Database.rdbGet, Database.emit, hg, hl, hu, Event.isWrite]
      | some j =>
        refine ⟨?_, ?_, [Event.Get key, Event.Lock, Event.Unlock], ?_, ?_⟩ <;>
          simp [preloadKey, fetched, Database.rdbGet, Database.emit, hg, hl, hu, Event.isWrite]

/-- The loop of the loader over a list of keys. -/
theorem preload_fold_spec (c : Codec J B) (getOk : String → Bool) (ks : List String)
    (db : Database J B) :
    (ks.foldl (preloadKey c getOk) db).rdb = db.rdb
    ∧ (∀ k, (ks.foldl (preloadKey c getOk) db).data.lookup k
        = match (if k ∈ ks then fetched c getOk db.rdb k else none) with
          | some j => some (Value.decoded j)
          | none => db.data.lookup k)
    ∧ ∃ es, (ks.foldl (preloadKey c getOk) db).trace = db.trace ++ es
        ∧ ∀ e ∈ es, Event.isWrite e = false := by
  induction ks generalizing db with
  | nil => exact ⟨rfl, by simp, [], by simp, by simp⟩
  | cons key ks ih =>
    obtain ⟨hr, hd, es1, ht1, hw1⟩ := preloadKey_spec c getOk db key
    obtain ⟨ihr, ihd, es2, ht2, hw2⟩ := ih (preloadKey c getOk db key)
    rw [List.foldl_cons]
    refine ⟨ihr.trans hr, ?_, es1 ++ es2, ?_, ?_⟩
    · intro k
      rw [ihd k, hr, hd]
      by_cases hk : k ∈ ks
      · cases hf : fetched c getOk db.rdb k with
        | some j => simp [hk, hf]
        | none =>
          by_cases hkey : k = key
          · subst hkey
            simp [hk, hf]
          · cases hfk : fetched c getOk db.rdb key <;>
              simp [hk, hf, hkey, AList.lookup_insert_ne hkey]
      · by_cases hkey : k = key
        · subst hkey
          cases hf : fetched c getOk db.rdb k <;> simp [hk, hf, AList.lookup_insert]
        · cases hfk : fetched c getOk db.rdb key <;>
            simp [hk, hkey, AList.lookup_insert_ne hkey]
    · rw [ht2, ht1, List.append_assoc]
    · intro e he
      rcases List.mem_append.mp he with h | h
      · exact hw1 e h
      · exact hw2 e h

/-- C8: after `preloadData` runs with a successful key listing, every key of
the backing store whose value is fetched and deserialized successfully holds
the deserialized value in memory; a key whose fetch or deserialization fails
keeps its in-memory entry as it was, and so does every key that the backing
store does not list, whatever happens to the other keys; the backing store is
unchanged and no write request is issued. -/
theorem preloadData_loads_backing_store (c : Codec J B) (getOk : String → Bool)
    (db : Database J B) (k : String) :
    (∀ val data, db.rdb.lookup k = some val → getOk k = true → c.unmarshal val = some data →
        (preloadData c true getOk db).data.lookup k = some (Value.decoded data))
    ∧ (∀ val, db.rdb.lookup k = some val → (getOk k = false ∨ c.unmarshal val = none) →
        (preloadData c true getOk db).data.lookup k = db.data.lookup k)
    ∧ (k ∉ db.rdb → (preloadData c true getOk db).data.lookup k = db.data.lookup k)
    ∧ (preloadData c true getOk db).rdb = db.rdb
    ∧ ∃ es, (preloadData c true getOk db).trace = db.trace ++ es
        ∧ ∀ e ∈ es, Event.isWrite e = false := by
  have hp : preloadData c true getOk db
      = db.rdb.keys.foldl (preloadKey c getOk) (db.emit Event.Keys) := by
    simp [preloadData, Database.rdbKeys]
  obtain ⟨hr, hd, es, ht, hw⟩ := preload_fold_spec c getOk db.rdb.keys (db.emit Event.Keys)
  rw [hp]
  have hr2 : (db.rdb.keys.foldl (preloadKey c getOk) (db.emit Event.Keys)).rdb = db.rdb := hr
  have hd2 : (db.rdb.keys.foldl (preloadKey c getOk) (db.emit Event.Keys)).data.lookup k
      = match (if k ∈ db.rdb.keys then fetched c getOk db.rdb k else none) with
        | some j => some (Value.decoded j)
        | none => db.data.lookup k := hd k
  have ht2 : (db.rdb.keys.foldl (preloadKey c getOk) (db.emit Event.Keys)).trace
      = (db.trace ++ [Event.Keys]) ++ es := ht
  refine ⟨?_, ?_, ?_, hr2, Event.Keys :: es, ?_, ?_⟩
  · intro val data hv hg hu
    have hmem : k ∈ db.rdb.keys := AList.mem_keys.mp (AList.lookup_isSome.mp (by simp [hv]))
    rw [hd2]
    simp [hmem, fetched, hg, hv, hu]
  · intro val hv hfail
    rw [hd2]
    rcases hfail with hg | hu
    · simp [fetched, hg]
    · simp [fetched, hv, hu]
  · intro hk
    have hmem : k ∉ db.rdb.keys := fun h => hk (AList.mem_keys.mpr h)
    rw [hd2]
    simp [hmem]
  · rw [ht2]
    simp
  · intro e he
    rcases List.mem_cons.mp he with h | h
    · subst h
      rfl
    · exact hw e h

/-- Witness for C8: the fetch of "7" fails and that of "42" succeeds; "42"
is loaded, "7" keeps its older in-memory value, "9" is untouched. -/
theorem preloadData_loads_backing_store_witness :
    (preloadData docCodec true allButSeven warmDatabase).data.lookup "42"
        = some (Value.decoded (Doc.studentObject ana))
    ∧ (preloadData docCodec true allButSeven warmDatabase).data.lookup "7"
        = warmDatabase.data.lookup "7"
    ∧ (preloadData docCodec true allButSeven warmDatabase).data.lookup "9"
        = warmDatabase.data.lookup "9" :=
  ⟨(preloadData_loads_backing_store docCodec allButSeven warmDatabase "42").1
      (Doc.studentObject ana) (Doc.studentObject ana) (by decide) (by decide) rfl,
    (preloadData_loads_backing_store docCodec allButSeven warmDatabase "7").2.1
      (Doc.text "seven") (by decide) (Or.inl (by decide)),
    (preloadData_loads_backing_store docCodec allButSeven warmDatabase "9").2.2.1
      (by decide)⟩

end ClaimsPreload

section ClaimsManager

variable {J B : Type}

/-- C10: for a student ID that is not in the student map, `QueryStudent`
returns the not-found error and leaves the student map as it was whenever
the store yields a JSON-deserialized value for the key, be it held in memory
(put there by the warm-start loader, a gossip merge or an earlier lazy load)
or lazily loaded by this very call; in the latter case the value is added to
the in-memory map of the store, yet not to the student map. -/
theorem QueryStudent_rejects_decoded_values (c : Codec J B) (getOk : Bool)
    (sm : StudentManager J B) (studentID : Int)
    (habs : sm.students.lookup studentID = none) :
    (∀ j, (sm.db.Query c getOk (Itoa studentID)).1 = some (Value.decoded j) →
      (sm.QueryStudent c getOk studentID).1 = none
      ∧ (sm.QueryStudent c getOk studentID).2.students = sm.students)
    ∧ (∀ j, sm.db.data.lookup (Itoa studentID) = some (Value.decoded j) →
      (sm.QueryStudent c getOk studentID).1 = none
      ∧ (sm.QueryStudent c getOk studentID).2.students = sm.students)
    ∧ (∀ val j, sm.db.data.lookup (Itoa studentID) = none →
      sm.db.rdb.lookup (Itoa studentID) = some val → c.unmarshal val = some j →
      (sm.QueryStudent c true studentID).1 = none
      ∧ (sm.QueryStudent c true studentID).2.students = sm.students
      ∧ (sm.QueryStudent c true studentID).2.db.data.lookup (Itoa studentID)
          = some (Value.decoded j)) := by
  have key : ∀ (g : Bool) (j : J),
      (sm.db.Query c g (Itoa studentID)).1 = some (Value.decoded j) →
      sm.QueryStudent c g studentID
        = (none, { sm with db := (sm.db.Query c g (Itoa studentID)).2 }) := by
    intro g j hq
    unfold StudentManager.QueryStudent
    rw [habs]
    rcases hres : sm.db.Query c g (Itoa studentID) with ⟨r, db2⟩
    rw [hres] at hq
    simp only at hq
    subst hq
    rfl
  refine ⟨?_, ?_, ?_⟩
  · intro j hq
    rw [key getOk j hq]
    exact ⟨rfl, rfl⟩
  · intro j hmem
    have hq : (sm.db.Query c getOk (Itoa studentID)).1 = some (Value.decoded j) := by
      rw [Query_hit c getOk sm.db _ _ hmem]
    rw [key getOk j hq]
    exact ⟨rfl, rfl⟩
  · intro val j hmiss hval hdec
    have hq := Query_miss_loaded c sm.db (Itoa studentID) val j hmiss hval hdec
    rw [key true j (by rw [hq])]
    rw [hq]
    exact ⟨rfl, rfl, AList.lookup_insert _⟩

/-- Witness for C10: the record of student 42 is in the backing store only;
`QueryStudent(42)` answers not-found, the student map stays empty, and the
record is now in the in-memory map of the store. -/
theorem QueryStudent_rejects_decoded_values_witness :
    coldManager.students.lookup 42 = none
    ∧ (coldManager.QueryStudent docCodec true 42).1 = none
    ∧ (coldManager.QueryStudent docCodec true 42).2.students = coldManager.students
    ∧ (coldManager.QueryStudent docCodec true 42).2.db.data.lookup (Itoa 42)
        = some (Value.decoded (Doc.studentObject ana)) :=
  ⟨by decide,
    (QueryStudent_rejects_decoded_values docCodec true coldManager 42 (by decide)).2.2
      (Doc.studentObject ana) (Doc.studentObject ana) (by decide) (by decide) rfl⟩

end ClaimsManager

section ClaimsGossip

variable {J B : Type}

/-- A query for a key that neither memory nor the backing store holds. -/
theorem Query_miss_absent (c : Codec J B) (getOk : Bool) (db : Database J B) (key : String)
    (hmiss : db.data.lookup key = none) (hval : db.rdb.lookup key = none) :
    (db.Query c getOk key).1 = none
    ∧ (db.Query c getOk key).2.data = db.data
    ∧ (db.Query c getOk key).2.rdb = db.rdb := by
  cases getOk <;> simp [Database.Query, Database.rdbGet, Database.emit, hmiss, hval]

/-- The first half of the scenario. -/
theorem insertThenQuery_spec (c : Codec J B) (key : String) (value : Value J) :
    (insertThenQuery c key value).1 = some value
    ∧ (insertThenQuery c key value).2.data.lookup key = some value
    ∧ (insertThenQuery c key value).2.data = (∅ : GoMap (Value J)).insert key value := by
  have hd : ((NewDatabase (∅ : GoMap B) : Database J B).Insert c true key value).data
      = (∅ : GoMap (Value J)).insert key value := by
    simp only [Database.Insert, Database.rdbSet, Database.emit, NewDatabase]
    cases c.marshal value <;> rfl
  have hl : ((NewDatabase (∅ : GoMap B) : Database J B).Insert c true key value).data.lookup key
      = some value := by
    rw [hd, AList.lookup_insert]
  unfold insertThenQuery
  rw [Query_hit c true _ key value hl]
  exact ⟨rfl, hl, hd⟩

/-- The second half of the scenario. -/
theorem deleteThenQuery_spec (c : Codec J B) (key : String) (value : Value J) :
    (deleteThenQuery c key value).1 = none
    ∧ (deleteThenQuery c key value).2.data.lookup key = none
    ∧ (deleteThenQuery c key value).2.rdb.lookup key = none := by
  have hd : ((insertThenQuery c key value).2.Delete true key).data.lookup key = none := by
    simp [Database.Delete, Database.rdbDel, Database.emit, AList.lookup_erase]
  have hr : ((insertThenQuery c key value).2.Delete true key).rdb.lookup key = none := by
    simp [Database.Delete, Database.rdbDel, Database.emit, AList.lookup_erase]
  obtain ⟨h1, h2, h3⟩ := Query_miss_absent c true _ key hd hr
  unfold deleteThenQuery
  exact ⟨h1, by rw [h2, hd], by rw [h3, hr]⟩

/-- C5, amended: on a fresh database over an empty, available backing store,
`Query(k)` after `Insert(k, v)` returns `v`; after a subsequent `Delete(k)`,
`Query(k)` returns not-found and `k` is absent from the in-memory map and
from the backing store; and a peer that acknowledges a snapshot pushed by the
node after the `Insert` and before the `Delete` holds under `k` the value
that `v` becomes on the wire, that is `v` marshalled and decoded again,
which is a JSON-deserialized value and is `v` itself exactly when `v` is
unchanged by that round trip. -/
theorem insert_delete_scenario (c : Codec J B) (key : String) (value : Value J)
    (postOk readOk : Bool) (n peer : Node J B)
    (hn : n.Database = (insertThenQuery c key value).2)
    (hack : (n.SyncWithPeer c postOk readOk peer).resp = some 200) :
    (insertThenQuery c key value).1 = some value
    ∧ (deleteThenQuery c key value).1 = none
    ∧ (deleteThenQuery c key value).2.data.lookup key = none
    ∧ (deleteThenQuery c key value).2.rdb.lookup key = none
    ∧ (n.SyncWithPeer c postOk readOk peer).peer.Database.data.lookup key = c.wire value
    ∧ (∃ j, c.wire value = some (Value.decoded j))
    ∧ ((n.SyncWithPeer c postOk readOk peer).peer.Database.data.lookup key = some value
        ↔ c.wire value = some value) := by
  obtain ⟨hq, hl, _⟩ := insertThenQuery_spec c key value
  obtain ⟨hd1, hd2, hd3⟩ := deleteThenQuery_spec c key value
  obtain ⟨hs, hw⟩ := sync_acknowledged c postOk readOk n peer hack key
  rw [hn, hl] at hs hw
  have hs2 : (n.SyncWithPeer c postOk readOk peer).peer.Database.data.lookup key
      = c.wire value := hs
  refine ⟨hq, hd1, hd2, hd3, hs2, hw value rfl, ?_⟩
  rw [hs2]

/-- Witness for C5: the scenario with a decoded value, which the wire leaves
as it is; the peer holds it under "42" after the merge. -/
theorem insert_delete_scenario_witness :
    ((nodeAfterInsert (Value.decoded (Doc.text "Ana"))).SyncWithPeer docCodec true true
        nodeEmpty).resp = some 200
    ∧ (deleteThenQuery docCodec "42" (Value.decoded (Doc.text "Ana"))).1 = none
    ∧ ((nodeAfterInsert (Value.decoded (Doc.text "Ana"))).SyncWithPeer docCodec true true
        nodeEmpty).peer.Database.data.lookup "42" = some (Value.decoded (Doc.text "Ana")) :=
  ⟨by decide, by decide,
    (insert_delete_scenario docCodec "42" (Value.decoded (Doc.text "Ana")) true true
      (nodeAfterInsert (Value.decoded (Doc.text "Ana"))) nodeEmpty rfl (by decide)).2.2.2.2.2.2.mpr
      (by decide)⟩

/-- Counterexample for C5 as stated: the value inserted is a `*Student`, as
`AddStudent` inserts it; the peer acknowledges the snapshot and then holds
under "42" the decoded JSON object of the record, not the `*Student`. -/
theorem peer_holds_decoded_student :
    (insertThenQuery docCodec "42" (Value.student ana)).1 = some (Value.student ana)
    ∧ ((nodeAfterInsert (Value.student ana)).SyncWithPeer docCodec true true
        nodeEmpty).resp = some 200
    ∧ ((nodeAfterInsert (Value.student ana)).SyncWithPeer docCodec true true
        nodeEmpty).peer.Database.data.lookup "42"
          = some (Value.decoded (Doc.studentObject ana))
    ∧ ((nodeAfterInsert (Value.student ana)).SyncWithPeer docCodec true true
        nodeEmpty).peer.Database.data.lookup "42" ≠ some (Value.student ana) := by
  decide

/-- C6, amended: when node `a` pushes its snapshot to node `b`, node `b` then
pushes its snapshot to `a`, and both pushes are acknowledged, the key set of
either in-memory map is the union of the keys of `a` and `b`, and every value
has crossed the wire: a key of `a` carries at `b` the value of `a` marshalled
and decoded, and at `a` that value marshalled and decoded once more; a key
only in `b` keeps the value of `b` at `b` and carries it marshalled and
decoded at `a`.  When every value on both nodes is unchanged by the round
trip through JSON, the two maps agree on every key, every key of `a` carries
the value of `a` and every key only in `b` carries the value of `b`. -/
theorem exchange_converges_up_to_wire (c : Codec J B) (a b : Node J B)
    (h1 : (exchange c a b).1.resp = some 200) (h2 : (exchange c a b).2.resp = some 200)
    (k : String) :
    (k ∈ (exchange c a b).2.peer.Database.data ↔ k ∈ a.Database.data ∨ k ∈ b.Database.data)
    ∧ (k ∈ (exchange c a b).2.node.Database.data ↔ k ∈ a.Database.data ∨ k ∈ b.Database.data)
    ∧ (∀ v, a.Database.data.lookup k = some v →
        ∃ j j2, c.wire v = some (Value.decoded j)
          ∧ (exchange c a b).2.node.Database.data.lookup k = some (Value.decoded j)
          ∧ c.wire (Value.decoded j) = some (Value.decoded j2)
          ∧ (exchange c a b).2.peer.Database.data.lookup k = some (Value.decoded j2))
    ∧ (∀ v, a.Database.data.lookup k = none → b.Database.data.lookup k = some v →
        (exchange c a b).2.node.Database.data.lookup k = some v
          ∧ ∃ j, c.wire v = some (Value.decoded j)
            ∧ (exchange c a b).2.peer.Database.data.lookup k = some (Value.decoded j))
    ∧ ((∀ k2 v, a.Database.data.lookup k2 = some v → c.wire v = some v) →
        (∀ k2 v, b.Database.data.lookup k2 = some v → c.wire v = some v) →
        (exchange c a b).2.peer.Database.data.lookup k
            = (exchange c a b).2.node.Database.data.lookup k
          ∧ (∀ v, a.Database.data.lookup k = some v →
              (exchange c a b).2.peer.Database.data.lookup k = some v)
          ∧ (∀ v, a.Database.data.lookup k = none → b.Database.data.lookup k = some v →
              (exchange c a b).2.peer.Database.data.lookup k = some v)) := by
  have e1 : (exchange c a b).1 = a.SyncWithPeer c true true b := rfl
  have e2 : (exchange c a b).2
      = (a.SyncWithPeer c true true b).peer.SyncWithPeer c true true
          (a.SyncWithPeer c true true b).node := rfl
  rw [e1] at h1
  rw [e2] at h2 ⊢
  obtain ⟨hB1, hw1⟩ := sync_acknowledged c true true a b h1 k
  obtain ⟨hfa, -, -⟩ := sync_frame c true true a b
  obtain ⟨hA2, hw2⟩ := sync_acknowledged c true true _ _ h2 k
  obtain ⟨hfb, -, -⟩ := sync_frame c true true (a.SyncWithPeer c true true b).peer
    (a.SyncWithPeer c true true b).node
  rw [hfa] at hA2
  rw [hfb]
  simp only [← AList.lookup_isSome]
  generalize ((a.SyncWithPeer c true true b).peer.SyncWithPeer c true true
      (a.SyncWithPeer c true true b).node).peer.Database.data.lookup k = fa at hA2 ⊢
  generalize (a.SyncWithPeer c true true b).peer.Database.data.lookup k = fb at hB1 hA2 hw2 ⊢
  cases ha : a.Database.data.lookup k with
  | some v =>
    obtain ⟨j, hj⟩ := hw1 v ha
    rw [ha] at hB1
    have hfb2 : fb = some (Value.decoded j) := by rw [hB1]; exact hj
    obtain ⟨j2, hj2⟩ := hw2 (Value.decoded j) hfb2
    have hfa2 : fa = some (Value.decoded j2) := by rw [hA2, hfb2]; exact hj2
    subst hfb2
    subst hfa2
    refine ⟨by simp, by simp, ?_, ?_, ?_⟩
    · intro v2 hv2
      cases hv2
      exact ⟨j, j2, hj, rfl, hj2, rfl⟩
    · intro v2 hv2
      cases hv2
    · intro Ha _
      have hv : Value.decoded j = v := by
        have := Ha k v ha
        rw [hj] at this
        exact Option.some.inj this
      have hv2 : Value.decoded j2 = v := by
        have := Ha k v ha
        rw [← hv, hj2] at this
        rw [← hv]
        exact Option.some.inj this
      refine ⟨by rw [hv2, hv], ?_, ?_⟩
      · intro v3 hv3
        cases hv3
        rw [hv2]
      · intro v3 hv3
        cases hv3
  | none =>
    rw [ha] at hB1 hA2
    cases hb : b.Database.data.lookup k with
    | some v =>
      have hfb2 : fb = some v := by rw [hB1]; exact hb
      obtain ⟨j, hj⟩ := hw2 v hfb2
      have hfa2 : fa = some (Value.decoded j) := by rw [hA2, hfb2]; exact hj
      subst hfb2
      subst hfa2
      refine ⟨by simp, by simp, ?_, ?_, ?_⟩
      · intro v2 hv2
        cases hv2
      · intro v2 _ hv2
        cases hv2
        exact ⟨rfl, j, hj, rfl⟩
      · intro _ Hb
        have hv : Value.decoded j = v := by
          have := Hb k v hb
          rw [hj] at this
          exact Option.some.inj this
        refine ⟨by rw [hv], ?_, ?_⟩
        · intro v3 hv3
          cases hv3
        · intro v3 _ hv3
          cases hv3
          rw [hv]
    | none =>
      have hfb2 : fb = none := by rw [hB1]; exact hb
      have hfa2 : fa = none := by rw [hA2, hfb2]
      subst hfb2
      subst hfa2
      refine ⟨by simp, by simp, ?_, ?_, ?_⟩
      · intro v2 hv2
        cases hv2
      · intro v2 _ hv2
        cases hv2
      · intro _ _
        refine ⟨rfl, ?_, ?_⟩
        · intro v3 hv3
          cases hv3
        · intro v3 _ hv3
          cases hv3

/-- Witness for C6: node `a` holds a decoded value under "7", node `b` is
empty; after the exchange both hold that value under "7". -/
theorem exchange_converges_up_to_wire_witness :
    (exchange docCodec nodeText nodeEmpty).1.resp = some 200
    ∧ (exchange docCodec nodeText nodeEmpty).2.resp = some 200
    ∧ ("7" ∈ (exchange docCodec nodeText nodeEmpty).2.node.Database.data
        ↔ "7" ∈ nodeText.Database.data ∨ "7" ∈ nodeEmpty.Database.data) :=
  ⟨by decide, by decide,
    (exchange_converges_up_to_wire docCodec nodeText nodeEmpty (by decide) (by decide)
      "7").2.1⟩

/-- Counterexample for C6 as stated: node `a` holds the `*Student` under
"42" and node `b` is empty.  Both pushes are acknowledged, and afterwards
the key "42" of `a` carries at `a` the decoded JSON object of the record,
not the value of `a`. -/
theorem exchange_replaces_student_by_decoded :
    (exchange docCodec nodeAna nodeEmpty).1.resp = some 200
    ∧ (exchange docCodec nodeAna nodeEmpty).2.resp = some 200
    ∧ nodeAna.Database.data.lookup "42" = some (Value.student ana)
    ∧ (exchange docCodec nodeAna nodeEmpty).2.peer.Database.data.lookup "42"
        = some (Value.decoded (Doc.studentObject ana))
    ∧ (exchange docCodec nodeAna nodeEmpty).2.peer.Database.data.lookup "42"
        ≠ nodeAna.Database.data.lookup "42" := by
  decide

end ClaimsGossip

end StudentScoreManager
